import Mathlib

/-!
A shallow embedding of `pygame_tools.py` (classes `TrueEvery`, `Animation`,
`Button`, `MenuScreen`) and proofs of functional properties about them.

Modelling conventions:
* Python `int` is modelled as `Int` (arbitrary precision in both).
* A Python method that mutates `self` becomes a function `State → State`
  (or `State → Result × State` when it also returns a value).
* A Python method that can raise becomes a function into `Except PyError _`.
* pygame surfaces are irrelevant to the verified behaviour; an animation
  frame `(surface, duration)` is represented by its duration alone, and a
  `glob` result by the number of files it matched.
-/

/-- Python runtime errors that the modelled code can raise. -/
inductive PyError where
  | valueError
  | indexError
  | zeroDivision
  deriving DecidableEq, Repr

/-! ## TrueEvery (the periodic trigger) -/

/-- State of a `TrueEvery` functor (`pygame_tools.py`, class `TrueEvery`). -/
structure TrueEvery where
  count : Int
  initial_count : Int
  once : Bool
  calls : Int
  start_value : Int
  first_call : Bool
  deriving DecidableEq, Repr

/-- `TrueEvery.__init__(count, initial_count=None, once=False, start_value=0)`:
`initial_count` defaults to `count`; `calls` and `start_value` are both set to
`start_value`; `first_call` starts true. -/
def TrueEvery.make (count : Int) (initial_count : Option Int := none)
    (once : Bool := false) (start_value : Int := 0) : TrueEvery :=
  { count := count
    initial_count := initial_count.getD count
    once := once
    calls := start_value
    start_value := start_value
    first_call := true }

/-- `TrueEvery.__call__`.  Python returns `False` from the `once` guard,
`True` from the fire branch, and falls through returning `None` otherwise;
we keep the three outcomes apart as `some false`, `some true`, `none`. -/
def TrueEvery.call (s : TrueEvery) : Option Bool × TrueEvery :=
  if !s.first_call && s.once then
    (some false, s)
  else
    let calls := s.calls - 1
    if calls ≤ 0 then
      (some true,
       { s with
          calls := if s.first_call then s.initial_count else s.count
          first_call := false })
    else
      (none, { s with calls := calls })

/-- State after `n` further calls to `__call__` (return values discarded). -/
def TrueEvery.stateAfter (s : TrueEvery) : Nat → TrueEvery
  | 0 => s
  | n + 1 => (TrueEvery.stateAfter s n).call.2

/-- Return value of the `n`-th call to `__call__` (calls numbered from 1). -/
def TrueEvery.resultAt (s : TrueEvery) (n : Nat) : Option Bool :=
  (s.stateAfter (n - 1)).call.1

/-- The list of the return values of the first `n` calls, in order. -/
def TrueEvery.resultsN (s : TrueEvery) : Nat → List (Option Bool)
  | 0 => []
  | n + 1 => s.call.1 :: TrueEvery.resultsN s.call.2 n

/-! ## Animation -/

/-- State of an `Animation` (`pygame_tools.py`, class `Animation`).
`frames` holds the per-frame durations (`frames[i][1]` in the source; the
surface component `frames[i][0]` carries no verified behaviour).
The string field `glob_path` and the stored `frame_data` alias are omitted:
they are written once and never read back by the modelled operations. -/
structure Animation where
  frames : List Int
  frame_count : Nat
  frame_index : Nat
  frames_until_next : Int
  repititions : Option Int
  finished : Bool
  deriving DecidableEq, Repr

/-- `Animation.load(glob_path, frame_data)`, with the `glob` result
abstracted to the number of matched files.  Raises `ValueError` when the
lengths disagree; on an empty match list the source would then raise
`IndexError` at `self.frames[0][1]`. -/
def Animation.load (a : Animation) (fileCount : Nat) (frame_data : List Int) :
    Except PyError Animation :=
  if fileCount ≠ frame_data.length then
    .error .valueError
  else
    match frame_data with
    | [] => .error .indexError
    | d :: _ =>
        .ok { a with
                frames := frame_data
                frame_count := frame_data.length
                frame_index := 0
                frames_until_next := d }

/-- `Animation.__init__(glob_path, frame_data, repititions=None)`:
sets `finished` to `repititions == 0`, then calls `load`. -/
def Animation.make (fileCount : Nat) (frame_data : List Int)
    (repititions : Option Int := none) : Except PyError Animation :=
  Animation.load
    { frames := []
      frame_count := 0
      frame_index := 0
      frames_until_next := 0
      repititions := repititions
      finished := decide (repititions = some 0) }
    fileCount frame_data

/-- `Animation.update`.  The source indexes `self.frames[self.frame_index][1]`
after the wrap; `getD _ 0` is the total rendering of that read (it is only
reached with an in-range index on well-formed states). -/
def Animation.update (a : Animation) : Animation :=
  if a.finished then a
  else
    let futn := a.frames_until_next - 1
    if futn = 0 then
      let idx := (a.frame_index + 1) % a.frame_count
      let futn2 := futn + a.frames.getD idx 0
      match a.repititions with
      | some r =>
          if idx = 0 then
            let r2 := r - 1
            { a with
                frame_index := idx
                frames_until_next := futn2
                repititions := some r2
                finished := if r2 = 0 then true else a.finished }
          else
            { a with frame_index := idx, frames_until_next := futn2 }
      | none => { a with frame_index := idx, frames_until_next := futn2 }
    else
      { a with frames_until_next := futn }

/-- `Animation.get_surface` returns `self.frames[self.frame_index][0]`;
here the looked-up list entry stands for the frame pair. -/
def Animation.get_surface (a : Animation) : Option Int :=
  a.frames.get? a.frame_index

/-- `Animation.reset`: rewind to frame 0 with its full duration
(`self.frames[0][1]`, rendered total by `headD 0`). -/
def Animation.reset (a : Animation) : Animation :=
  { a with frame_index := 0, frames_until_next := a.frames.headD 0 }

/-- The state after `n` calls to `update`. -/
def Animation.updateN (a : Animation) : Nat → Animation
  | 0 => a
  | n + 1 => (Animation.updateN a n).update

/-! ## Button and MenuScreen -/

/-- An RGB colour tuple. -/
abbrev Color := Int × Int × Int

/-- A pygame `Rect` (position and size). -/
structure Rect where
  x : Int
  y : Int
  w : Int
  h : Int
  deriving DecidableEq, Repr

/-- `Rect.collidepoint`: a point on the right or bottom edge is outside. -/
def Rect.collidepoint (r : Rect) (p : Int × Int) : Bool :=
  decide (r.x ≤ p.1) && decide (p.1 < r.x + r.w) &&
  decide (r.y ≤ p.2) && decide (p.2 < r.y + r.h)

/-- State of a `Button` (`pygame_tools.py`, class `Button`).  The fields not
read by the verified operations (text, font, border configuration, the
user `action` callable — invoked for its side effects only) are omitted. -/
structure Button where
  rect : Rect
  rect_color : Color
  highlight_color : Color
  clicked_color : Color
  clicked : Bool
  highlight : Bool
  deriving DecidableEq, Repr

/-- `Button.__call__`: run the user action, then set `clicked`. -/
def Button.activate (b : Button) : Button :=
  { b with clicked := true }

/-- The fill colour `Button.draw` picks: `clicked_color` when `clicked`,
else `highlight_color` when `(override_highlight == None and highlight)
or override_highlight` is truthy, else `rect_color`. -/
def Button.fillColor (b : Button) (override_highlight : Option Bool) : Color :=
  if b.clicked then b.clicked_color
  else if (override_highlight = none ∧ b.highlight) ∨ override_highlight = some true then
    b.highlight_color
  else b.rect_color

/-- `Button.draw(screen, override_highlight=None)`: returns the fill colour
it painted with and the new state; `clicked` is cleared right after the
fill colour is read. -/
def Button.draw (b : Button) (override_highlight : Option Bool := none) :
    Color × Button :=
  (b.fillColor override_highlight, { b with clicked := false })

/-- Keyboard keys distinguished by `MenuScreen.key_down`. -/
inductive Key where
  | up
  | down
  | left
  | right
  | enter
  | space
  | other
  deriving DecidableEq, Repr

/-- State of a `MenuScreen` (`pygame_tools.py`, class `MenuScreen`): the
button list and the active index.  The inherited `GameScreen` fields
(surfaces, clock, sizes) carry no verified behaviour and are omitted. -/
structure MenuScreen where
  buttons : List Button
  button_index : Int
  deriving DecidableEq, Repr

/-- `MenuScreen.__init__`: empty button list, active index 0. -/
def MenuScreen.make : MenuScreen :=
  { buttons := [], button_index := 0 }

/-- `self.buttons[self.button_index]()` with Python list-index semantics:
a negative index counts from the end, an out-of-range one raises
`IndexError`.  The activated button is written back in place. -/
def MenuScreen.activateCurrent (m : MenuScreen) : Except PyError MenuScreen :=
  let j : Int :=
    if m.button_index < 0 then m.button_index + m.buttons.length
    else m.button_index
  if 0 ≤ j ∧ j < (m.buttons.length : Int) then
    match m.buttons.get? j.toNat with
    | some b => .ok { m with buttons := m.buttons.set j.toNat b.activate }
    | none => .error .indexError
  else .error .indexError

/-- `MenuScreen.key_down`: down/right increments the active index and
reduces it modulo the list length when it overflows (Python `%= 0` raises
`ZeroDivisionError`); up/left decrements it, jumping to `len - 1` when it
goes negative; return/space activates the current button. -/
def MenuScreen.key_down (m : MenuScreen) (k : Key) : Except PyError MenuScreen :=
  if k = Key.up ∨ k = Key.right ∨ k = Key.down ∨ k = Key.left then
    if k = Key.down ∨ k = Key.right then
      let bi := m.button_index + 1
      let buttons_length := m.buttons.length
      if bi ≥ (buttons_length : Int) then
        if buttons_length = 0 then .error .zeroDivision
        else .ok { m with button_index := bi % (buttons_length : Int) }
      else .ok { m with button_index := bi }
    else
      let bi := m.button_index - 1
      if bi < 0 then .ok { m with button_index := (m.buttons.length : Int) - 1 }
      else .ok { m with button_index := bi }
  else if k = Key.enter ∨ k = Key.space then
    m.activateCurrent
  else .ok m

/-- The `for i, button in enumerate(self.buttons)` loop of
`MenuScreen.mouse_button_down`: every button whose rect contains the click
position has `button_index` set to its index and is activated — there is
no `break`, so the loop keeps going after a hit. -/
def MenuScreen.clickButtons (pos : Int × Int) :
    List (Nat × Button) → MenuScreen → MenuScreen
  | [], m => m
  | (i, b) :: rest, m =>
      MenuScreen.clickButtons pos rest
        (if b.rect.collidepoint pos then
          { m with button_index := (i : Int), buttons := m.buttons.set i b.activate }
        else m)

/-- `MenuScreen.mouse_button_down(event)`: reacts only to the primary
button (`event.button == 1`) at the given (already scaled) mouse
position. -/
def MenuScreen.mouse_button_down (m : MenuScreen) (eventButton : Int)
    (mouse_pos : Int × Int) : MenuScreen :=
  if eventButton = 1 then MenuScreen.clickButtons mouse_pos m.buttons.enum m
  else m

/-! ## Specification-side helpers

Closed forms used to state properties; they are compared against the
embedded operations, not part of the embedding itself. -/

/-- Closed form of `TrueEvery`'s internal countdown: the value of `calls`
after `n ≥ 1` calls on a fresh trigger with period `count`, first interval
`ic` and `start_value = 0` (both `count` and `ic` at least 1). -/
def trueEveryCalls (count ic n : Nat) : Nat :=
  if n ≤ ic then ic + 1 - n else count - (n - ic - 1) % count

/-- Buttons after one click event: every button whose rect contains the
click position is activated, the others are untouched. -/
def activateHits (pos : Int × Int) (bs : List Button) : List Button :=
  bs.map fun b => if b.rect.collidepoint pos then b.activate else b

/-- Index (counting from `i`) of the last button in `bs` whose rect
contains the click position, if any. -/
def lastHitFrom (pos : Int × Int) : Nat → List Button → Option Nat
  | _, [] => none
  | i, b :: rest =>
      match lastHitFrom pos (i + 1) rest with
      | some j => some j
      | none => if b.rect.collidepoint pos then some i else none

/-- The animation of claim C1: 3 frames with durations `[2, 3, 4]` and
`repititions = 2`, as produced by `Animation.make 3 [2, 3, 4] (some 2)`. -/
def animC1 : Animation :=
  { frames := [2, 3, 4]
    frame_count := 3
    frame_index := 0
    frames_until_next := 2
    repititions := some 2
    finished := false }

/-- A plain unclicked button covering the square `[0,10) × [0,10)`. -/
def squareButton : Button :=
  { rect := { x := 0, y := 0, w := 10, h := 10 }
    rect_color := (255, 255, 255)
    highlight_color := (150, 150, 150)
    clicked_color := (100, 100, 100)
    clicked := false
    highlight := false }

/-- A menu holding two buttons with identical (hence overlapping) rects,
active index 0. -/
def overlapMenu : MenuScreen :=
  { buttons := [squareButton, squareButton], button_index := 0 }

/-! ## TrueEvery periodicity: claim C2 -/

/-- One step of a modular countdown: incrementing the dividend either
wraps the residue to 0 or bumps it by one. -/
theorem nat_succ_mod (m c : Nat) (hc : 1 ≤ c) :
    (m + 1) % c = if m % c = c - 1 then 0 else m % c + 1 := by
  have hd := Nat.div_add_mod m c
  by_cases h : m % c = c - 1
  · rw [if_pos h]
    have he : m + 1 = c * (m / c + 1) := by rw [Nat.mul_succ]; omega
    rw [he, Nat.mul_mod_right]
  · rw [if_neg h]
    have hlt : m % c < c := Nat.mod_lt _ hc
    have hlt2 : m % c + 1 < c := by omega
    have he : m + 1 = (m % c + 1) + c * (m / c) := by omega
    rw [he, Nat.add_mul_mod_self_left, Nat.mod_eq_of_lt hlt2]

/-- The closed-form countdown value stays at least 1. -/
theorem trueEveryCalls_pos (count ic n : Nat) (hc : 1 ≤ count) (hic : 1 ≤ ic)
    (hn : 1 ≤ n) : 1 ≤ trueEveryCalls count ic n := by
  unfold trueEveryCalls
  split
  · omega
  · have : (n - ic - 1) % count < count := Nat.mod_lt _ hc
    omega

/-- The closed-form countdown follows the decrement-or-reload recurrence
of `TrueEvery.__call__`. -/
theorem trueEveryCalls_succ (count ic n : Nat) (hc : 1 ≤ count) (hic : 1 ≤ ic)
    (hn : 1 ≤ n) :
    trueEveryCalls count ic (n + 1) =
      if trueEveryCalls count ic n = 1 then count
      else trueEveryCalls count ic n - 1 := by
  unfold trueEveryCalls
  by_cases h1 : n + 1 ≤ ic
  · rw [if_pos h1, if_pos (show n ≤ ic by omega),
      if_neg (show ¬ ic + 1 - n = 1 by omega)]
    omega
  · rw [if_neg h1]
    by_cases h2 : n ≤ ic
    · rw [if_pos h2]
      rw [show n + 1 - ic - 1 = 0 from by omega, Nat.zero_mod,
        if_pos (show ic + 1 - n = 1 by omega)]
      omega
    · rw [if_neg h2]
      have hr : (n - ic - 1) % count < count := Nat.mod_lt _ hc
      rw [show n + 1 - ic - 1 = (n - ic - 1) + 1 from by omega,
        nat_succ_mod _ _ hc]
      by_cases h3 : (n - ic - 1) % count = count - 1
      · rw [if_pos h3, if_pos (show count - (n - ic - 1) % count = 1 by omega)]
        omega
      · rw [if_neg h3, if_neg (show ¬ count - (n - ic - 1) % count = 1 by omega)]
        omega

/-- The countdown hits 1 exactly when the first interval (`ic` calls) is
over and a whole number of further periods has elapsed. -/
theorem trueEveryCalls_eq_one (count ic m : Nat) (hc : 1 ≤ count)
    (hic : 1 ≤ ic) (hm : 1 ≤ m) :
    trueEveryCalls count ic m = 1 ↔ (ic ≤ m ∧ (m - ic) % count = 0) := by
  unfold trueEveryCalls
  by_cases h : m ≤ ic
  · rw [if_pos h]
    constructor
    · intro h1
      refine ⟨by omega, ?_⟩
      rw [show m - ic = 0 from by omega, Nat.zero_mod]
    · intro h1
      omega
  · rw [if_neg h]
    have hr : (m - ic - 1) % count < count := Nat.mod_lt _ hc
    have hstep : (m - ic) % count =
        if (m - ic - 1) % count = count - 1 then 0 else (m - ic - 1) % count + 1 := by
      rw [show m - ic = (m - ic - 1) + 1 from by omega]
      exact nat_succ_mod _ _ hc
    constructor
    · intro h1
      refine ⟨by omega, ?_⟩
      rw [hstep, if_pos (show (m - ic - 1) % count = count - 1 by omega)]
    · intro h1
      by_cases h3 : (m - ic - 1) % count = count - 1
      · omega
      · rw [hstep, if_neg h3] at h1
        omega

/-- State invariant of a fresh trigger with period `count ≥ 1`, explicit
first interval `ic ≥ 1` and default `start_value = 0`: after `n ≥ 1`
calls, `first_call` is down and `calls` holds the closed-form value. -/
theorem trueEvery_state_inv (count ic : Nat) (hc : 1 ≤ count) (hic : 1 ≤ ic) :
    ∀ n, 1 ≤ n →
      (TrueEvery.make (count : Int) (some (ic : Int)) false 0).stateAfter n =
        { count := (count : Int), initial_count := (ic : Int), once := false,
          calls := (trueEveryCalls count ic n : Int), start_value := 0,
          first_call := false } := by
  intro n
  induction n with
  | zero => omega
  | succ n ih =>
      intro _
      by_cases hn1 : 1 ≤ n
      · show ((TrueEvery.make (count : Int) (some (ic : Int)) false 0).stateAfter n).call.2 = _
        rw [ih hn1]
        have hpos := trueEveryCalls_pos count ic n hc hic hn1
        rw [trueEveryCalls_succ count ic n hc hic hn1]
        by_cases h1 : trueEveryCalls count ic n = 1
        · rw [if_pos h1]
          unfold TrueEvery.call
          rw [if_neg (by simp)]
          rw [if_pos (show ((trueEveryCalls count ic n : Nat) : Int) - 1 ≤ 0 by omega)]
          simp
        · rw [if_neg h1]
          unfold TrueEvery.call
          rw [if_neg (by simp)]
          rw [if_neg (show ¬ ((trueEveryCalls count ic n : Nat) : Int) - 1 ≤ 0 by omega)]
          have hcast : ((trueEveryCalls count ic n - 1 : Nat) : Int) =
              ((trueEveryCalls count ic n : Nat) : Int) - 1 := by omega
          simp [hcast]
      · have hn0 : n = 0 := by omega
        subst hn0
        show ((TrueEvery.make (count : Int) (some (ic : Int)) false 0).stateAfter 0).call.2 = _
        have h1 : trueEveryCalls count ic 1 = ic := by
          unfold trueEveryCalls
          rw [if_pos hic]
          omega
        rw [h1]
        unfold TrueEvery.stateAfter TrueEvery.make TrueEvery.call
        rw [if_neg (by simp)]
        rw [if_pos (show (0 : Int) - 1 ≤ 0 by omega)]
        simp

/-- The `n`-th result of a fresh trigger with explicit first interval:
`True` exactly on call 1 and every `count`-th call after the first
interval of `ic` calls. -/
theorem trueEvery_result (count ic : Nat) (hc : 1 ≤ count) (hic : 1 ≤ ic)
    (n : Nat) (hn : 1 ≤ n) :
    (TrueEvery.make (count : Int) (some (ic : Int)) false 0).resultAt n = some true ↔
      (n = 1 ∨ (ic + 1 ≤ n ∧ (n - ic - 1) % count = 0)) := by
  unfold TrueEvery.resultAt
  by_cases h1 : n = 1
  · subst h1
    show ((TrueEvery.make (count : Int) (some (ic : Int)) false 0).stateAfter 0).call.1 =
        some true ↔ _
    unfold TrueEvery.stateAfter TrueEvery.make TrueEvery.call
    rw [if_neg (by simp)]
    rw [if_pos (show (0 : Int) - 1 ≤ 0 by omega)]
    simp
  · have hn2 : 1 ≤ n - 1 := by omega
    rw [trueEvery_state_inv count ic hc hic (n - 1) hn2]
    have hpos := trueEveryCalls_pos count ic (n - 1) hc hic hn2
    have hone := trueEveryCalls_eq_one count ic (n - 1) hc hic hn2
    unfold TrueEvery.call
    rw [if_neg (by simp)]
    by_cases h2 : trueEveryCalls count ic (n - 1) = 1
    · rw [if_pos (show ((trueEveryCalls count ic (n - 1) : Nat) : Int) - 1 ≤ 0 by omega)]
      have hR : n = 1 ∨ (ic + 1 ≤ n ∧ (n - ic - 1) % count = 0) := by
        right
        have h3 := hone.mp h2
        refine ⟨by omega, ?_⟩
        rw [show n - ic - 1 = (n - 1) - ic from by omega]
        exact h3.2
      exact iff_of_true rfl hR
    · rw [if_neg (show ¬ ((trueEveryCalls count ic (n - 1) : Nat) : Int) - 1 ≤ 0 by omega)]
      have hnR : ¬ (n = 1 ∨ (ic + 1 ≤ n ∧ (n - ic - 1) % count = 0)) := by
        rintro (h3 | ⟨h3, h4⟩)
        · omega
        · apply h2
          apply hone.mpr
          refine ⟨by omega, ?_⟩
          rw [show (n - 1) - ic = n - ic - 1 from by omega]
          exact h4
      exact iff_of_false (by simp) hnR

/-- With the default first interval (`initial_count = count`), the firing
calls `1, count+1, 2·count+1, …` are exactly those with
`(n - 1) % count = 0`. -/
theorem trueEvery_default_iff (count n : Nat) (hc : 1 ≤ count) (hn : 1 ≤ n) :
    (n = 1 ∨ (count + 1 ≤ n ∧ (n - count - 1) % count = 0)) ↔ (n - 1) % count = 0 := by
  constructor
  · rintro (rfl | ⟨h1, h2⟩)
    · simp
    · rw [show n - 1 = (n - count - 1) + count from by omega, Nat.add_mod_right]
      exact h2
  · intro h
    by_cases h1 : n = 1
    · exact Or.inl h1
    · right
      by_cases h2 : count + 1 ≤ n
      · refine ⟨h2, ?_⟩
        rw [show n - 1 = (n - count - 1) + count from by omega, Nat.add_mod_right] at h
        exact h
      · exfalso
        rw [Nat.mod_eq_of_lt (show n - 1 < count by omega)] at h
        omega

/-- Claim C2: for `count ≥ 1`, a fresh `TrueEvery(count)` with default
arguments returns `True` exactly on calls `1, count+1, 2·count+1, …`
(equivalently `(n-1) % count = 0`) and a non-`True` value on every other
call; with a supplied `initial_count = ic` that differs from `count`, the
firing calls are `1, ic+1, ic+count+1, …` instead. -/
theorem claim_C2 (count ic n : Nat) (hc : 1 ≤ count) (hic : 1 ≤ ic)
    (hn : 1 ≤ n) :
    ((TrueEvery.make (count : Int) none false 0).resultAt n = some true ↔
      (n - 1) % count = 0) ∧
    (ic ≠ count →
      ((TrueEvery.make (count : Int) (some (ic : Int)) false 0).resultAt n = some true ↔
        (n = 1 ∨ (ic + 1 ≤ n ∧ (n - ic - 1) % count = 0)))) := by
  constructor
  · have hdef : TrueEvery.make (count : Int) none false 0 =
        TrueEvery.make (count : Int) (some (count : Int)) false 0 := rfl
    rw [hdef, trueEvery_result count count hc hc n hn]
    exact trueEvery_default_iff count n hc hn
  · intro _
    exact trueEvery_result count ic hc hic n hn

/-- Witness for C2 with period 2: with default arguments call 7 fires
(`(7-1) % 2 = 0`); with first interval 3 call 6 fires
(`6 = 3 + 2 + 1`). -/
theorem claim_C2_witness :
    ((TrueEvery.make (2 : Int) none false 0).resultAt 7 = some true ↔
      (7 - 1) % 2 = 0) ∧
    ((TrueEvery.make (2 : Int) (some (3 : Int)) false 0).resultAt 6 = some true ↔
      (6 = 1 ∨ (3 + 1 ≤ 6 ∧ (6 - 3 - 1) % 2 = 0))) := by
  constructor
  · exact (claim_C2 2 3 7 (by decide) (by decide) (by decide)).1
  · exact (claim_C2 2 3 6 (by decide) (by decide) (by decide)).2 (by decide)

/-! ## MenuScreen mouse: claim C3 -/

/-- Setting the element right after a prefix of known length. -/
theorem list_set_append {α : Type} (pre : List α) (b v : α) (rest : List α) :
    (pre ++ b :: rest).set pre.length v = pre ++ v :: rest := by
  induction pre with
  | nil => rfl
  | cons x xs ih => simp [List.set, ih]

/-- What the click loop does from an arbitrary position in the button
list: it activates every colliding button of the suffix and leaves
`button_index` at the last colliding index (or untouched when none
collides). -/
theorem MenuScreen.clickButtons_spec (pos : Int × Int) (l : List Button) :
    ∀ (pre : List Button) (bi : Int),
      MenuScreen.clickButtons pos (List.enumFrom pre.length l)
        { buttons := pre ++ l, button_index := bi } =
      { buttons := pre ++ activateHits pos l,
        button_index :=
          match lastHitFrom pos pre.length l with
          | some j => (j : Int)
          | none => bi } := by
  induction l with
  | nil => intro pre bi; simp [MenuScreen.clickButtons, activateHits, lastHitFrom]
  | cons b rest ih =>
      intro pre bi
      rw [List.enumFrom_cons, MenuScreen.clickButtons]
      by_cases hc : b.rect.collidepoint pos
      · rw [if_pos hc]
        have hset :
            ({ buttons := pre ++ b :: rest, button_index := bi } : MenuScreen).buttons.set
              pre.length b.activate = (pre ++ [b.activate]) ++ rest := by
          simp [list_set_append]
        rw [show ({ buttons := pre ++ b :: rest, button_index := bi } : MenuScreen).buttons.set
              pre.length b.activate = (pre ++ [b.activate]) ++ rest from hset]
        have hlen : pre.length + 1 = (pre ++ [b.activate]).length := by simp
        rw [hlen, ih (pre ++ [b.activate]) (pre.length : Int)]
        have hlen2 : (pre ++ [b.activate]).length = pre.length + 1 := by simp
        rw [hlen2]
        simp only [activateHits, lastHitFrom, List.map_cons, if_pos hc]
        cases hlast : lastHitFrom pos (pre.length + 1) rest <;> simp [activateHits]
      · rw [if_neg hc]
        have hsplit : pre ++ b :: rest = (pre ++ [b]) ++ rest := by simp
        rw [show ({ buttons := pre ++ b :: rest, button_index := bi } : MenuScreen) =
              { buttons := (pre ++ [b]) ++ rest, button_index := bi } from by rw [hsplit]]
        have hlen : pre.length + 1 = (pre ++ [b]).length := by simp
        rw [hlen, ih (pre ++ [b]) bi]
        have hlen2 : (pre ++ [b]).length = pre.length + 1 := by simp
        rw [hlen2]
        simp only [activateHits, lastHitFrom, List.map_cons, if_neg hc]
        cases hlast : lastHitFrom pos (pre.length + 1) rest <;> simp [activateHits]

/-- Counterexample to claim C3: two buttons with identical rects, primary
click inside both.  The claim predicts active index 0 with only the first
button activated; the loop has no `break`, so the code activates both and
leaves the active index at 1 (the last colliding button). -/
theorem claim_C3_counterexample :
    squareButton.rect.collidepoint (5, 5) = true ∧
    (overlapMenu.buttons.getD 0 squareButton).clicked = false ∧
    (overlapMenu.buttons.getD 1 squareButton).clicked = false ∧
    (overlapMenu.mouse_button_down 1 (5, 5)).button_index = 1 ∧
    ((overlapMenu.mouse_button_down 1 (5, 5)).buttons.getD 0 squareButton).clicked = true ∧
    ((overlapMenu.mouse_button_down 1 (5, 5)).buttons.getD 1 squareButton).clicked = true := by
  decide

/-- Claim C3 as amended: on a primary-button press, every button whose
rect contains the position is activated (exactly one activation each, in
list order), and the last colliding button in list order — not the
first — becomes the active one; without a hit `button_index` is
unchanged. -/
theorem claim_C3 (m : MenuScreen) (pos : Int × Int) :
    (m.mouse_button_down 1 pos).buttons = activateHits pos m.buttons ∧
    (m.mouse_button_down 1 pos).button_index =
      (match lastHitFrom pos 0 m.buttons with
       | some j => (j : Int)
       | none => m.button_index) := by
  have h := MenuScreen.clickButtons_spec pos m.buttons [] m.button_index
  simp only [List.nil_append, List.length_nil] at h
  unfold MenuScreen.mouse_button_down
  rw [if_pos rfl]
  rw [show m.buttons.enum = List.enumFrom 0 m.buttons from rfl]
  rw [show ({ buttons := m.buttons, button_index := m.button_index } : MenuScreen) = m
        from rfl] at h
  rw [h]
  exact ⟨rfl, rfl⟩

/-! ## TrueEvery once mode: claim C5 -/

/-- Once `first_call` is down and `once` is set, a call returns `False`
and changes nothing. -/
theorem TrueEvery.call_of_not_first (s : TrueEvery)
    (h1 : s.first_call = false) (h2 : s.once = true) :
    s.call = (some false, s) := by
  simp [TrueEvery.call, h1, h2]

/-- All results after `first_call` went down, in `once` mode, are `False`. -/
theorem TrueEvery.resultsN_of_not_first (s : TrueEvery)
    (h1 : s.first_call = false) (h2 : s.once = true) (n : Nat) :
    s.resultsN n = List.replicate n (some false) := by
  induction n generalizing s with
  | zero => rfl
  | succ n ih =>
      rw [TrueEvery.resultsN, TrueEvery.call_of_not_first s h1 h2]
      rw [List.replicate_succ, ih s h1 h2]

/-- A call that returned `True` leaves `first_call` down. -/
theorem TrueEvery.first_call_after_true (s : TrueEvery)
    (h : s.call.1 = some true) : s.call.2.first_call = false := by
  unfold TrueEvery.call at h ⊢
  by_cases c1 : (!s.first_call && s.once) = true
  · rw [if_pos c1] at h
    simp at h
  · rw [if_neg c1] at h ⊢
    by_cases c2 : s.calls - 1 ≤ 0
    · rw [if_pos c2]
    · rw [if_neg c2] at h
      simp at h

/-- A call never changes the `once` configuration flag. -/
theorem TrueEvery.call_once_eq (s : TrueEvery) : s.call.2.once = s.once := by
  unfold TrueEvery.call
  split
  · rfl
  · dsimp only
    split <;> rfl

/-- In `once` mode, at most one of the first `n` results is `True`. -/
theorem TrueEvery.once_at_most_one (s : TrueEvery) (h : s.once = true) (n : Nat) :
    (s.resultsN n).count (some true) ≤ 1 := by
  induction n generalizing s with
  | zero => simp [TrueEvery.resultsN]
  | succ n ih =>
      rw [TrueEvery.resultsN]
      simp only [List.count_cons, beq_iff_eq]
      by_cases hr : s.call.1 = some true
      · have h1 := TrueEvery.first_call_after_true s hr
        have h2 : s.call.2.once = true := (TrueEvery.call_once_eq s).trans h
        rw [TrueEvery.resultsN_of_not_first _ h1 h2]
        simp [hr, List.count_replicate]
      · have h2 : s.call.2.once = true := (TrueEvery.call_once_eq s).trans h
        have := ih s.call.2 h2
        simp only [if_neg hr]
        simpa using this

/-- Claim C5: a `TrueEvery` constructed with `once = true` (any period,
first interval and start offset) returns `True` on at most one of its
calls, over any number of calls and with no resets. -/
theorem claim_C5 (count : Int) (initial_count : Option Int)
    (start_value : Int) (n : Nat) :
    ((TrueEvery.make count initial_count true start_value).resultsN n).count
      (some true) ≤ 1 :=
  TrueEvery.once_at_most_one _ rfl n

/-! ## MenuScreen keyboard: claims C9, C10 -/

/-- On a valid active index, activating the current button succeeds and
only sets that button's `clicked` flag. -/
theorem MenuScreen.activateCurrent_ok (m : MenuScreen)
    (h0 : 0 ≤ m.button_index) (hlt : m.button_index < (m.buttons.length : Int)) :
    ∃ b, m.buttons.get? m.button_index.toNat = some b ∧
      m.activateCurrent =
        .ok { m with buttons := m.buttons.set m.button_index.toNat b.activate } := by
  have hnat : m.button_index.toNat < m.buttons.length := by omega
  refine ⟨m.buttons.get ⟨_, hnat⟩, List.get?_eq_get hnat, ?_⟩
  unfold MenuScreen.activateCurrent
  rw [if_neg (show ¬ m.button_index < 0 by omega)]
  rw [if_pos ⟨h0, hlt⟩, List.get?_eq_get hnat]

/-- Claim C9: with a non-empty button list, an up/left key at index 0
wraps the active index to `len - 1`, and a down/right key at index
`len - 1` wraps it to 0. -/
theorem claim_C9 (m : MenuScreen) (k : Key) (hne : m.buttons ≠ []) :
    ((k = Key.up ∨ k = Key.left) → m.button_index = 0 →
      m.key_down k = .ok { m with button_index := (m.buttons.length : Int) - 1 }) ∧
    ((k = Key.down ∨ k = Key.right) → m.button_index = (m.buttons.length : Int) - 1 →
      m.key_down k = .ok { m with button_index := 0 }) := by
  have hlen : 0 < m.buttons.length := List.length_pos.mpr hne
  constructor
  · rintro (rfl | rfl) hbi <;> simp [MenuScreen.key_down, hbi]
  · rintro (rfl | rfl) hbi <;>
      · simp only [MenuScreen.key_down]
        rw [if_pos (by simp), if_pos (by simp), hbi]
        rw [if_pos (by omega), if_neg (by omega)]
        have : (m.buttons.length : Int) - 1 + 1 = (m.buttons.length : Int) := by ring
        rw [this, Int.emod_self]

/-- Witness for C9 on a three-button menu: previous from index 0 yields 2,
next from index 2 yields 0. -/
theorem claim_C9_witness :
    ([squareButton, squareButton, squareButton] : List Button) ≠ [] ∧
    ({ buttons := [squareButton, squareButton, squareButton],
       button_index := 0 } : MenuScreen).key_down Key.up =
      .ok { buttons := [squareButton, squareButton, squareButton], button_index := 2 } ∧
    ({ buttons := [squareButton, squareButton, squareButton],
       button_index := 2 } : MenuScreen).key_down Key.down =
      .ok { buttons := [squareButton, squareButton, squareButton], button_index := 0 } := by
  refine ⟨by simp, ?_, ?_⟩
  · exact (claim_C9 { buttons := [squareButton, squareButton, squareButton], button_index := 0 }
      Key.up (by simp)).1 (Or.inl rfl) rfl
  · exact (claim_C9 { buttons := [squareButton, squareButton, squareButton], button_index := 2 }
      Key.down (by simp)).2 (Or.inl rfl) (by decide)

/-- Claim C10: the constructor installs an empty button list with index 0;
on any key, `key_down` over a non-empty button list with an in-range
active index succeeds and keeps the index in `[0, len)`; on the freshly
constructed (empty) menu, a next-direction key raises `ZeroDivisionError`
and a confirm key raises `IndexError`. -/
theorem claim_C10 :
    (MenuScreen.make.buttons = [] ∧ MenuScreen.make.button_index = 0) ∧
    (∀ (m : MenuScreen) (k : Key), m.buttons ≠ [] →
        0 ≤ m.button_index → m.button_index < (m.buttons.length : Int) →
        ∃ m', m.key_down k = .ok m' ∧
          m'.buttons.length = m.buttons.length ∧
          0 ≤ m'.button_index ∧ m'.button_index < (m'.buttons.length : Int)) ∧
    (MenuScreen.make.key_down Key.down = .error PyError.zeroDivision ∧
     MenuScreen.make.key_down Key.right = .error PyError.zeroDivision ∧
     MenuScreen.make.key_down Key.enter = .error PyError.indexError ∧
     MenuScreen.make.key_down Key.space = .error PyError.indexError) := by
  refine ⟨⟨rfl, rfl⟩, ?_, rfl, rfl, rfl, rfl⟩
  intro m k hne h0 hlt
  have hlen : 0 < m.buttons.length := List.length_pos.mpr hne
  cases k with
  | up | left =>
      simp only [MenuScreen.key_down]
      rw [if_pos (by simp), if_neg (by simp)]
      by_cases h : m.button_index - 1 < 0
      · rw [if_pos h]
        exact ⟨_, rfl, rfl,
          show (0 : Int) ≤ (m.buttons.length : Int) - 1 by omega,
          show (m.buttons.length : Int) - 1 < (m.buttons.length : Int) by omega⟩
      · rw [if_neg h]
        exact ⟨_, rfl, rfl,
          show (0 : Int) ≤ m.button_index - 1 by omega,
          show m.button_index - 1 < (m.buttons.length : Int) by omega⟩
  | down | right =>
      simp only [MenuScreen.key_down]
      rw [if_pos (by simp), if_pos (by simp)]
      by_cases h : m.button_index + 1 ≥ (m.buttons.length : Int)
      · rw [if_pos h, if_neg (by omega)]
        refine ⟨_, rfl, rfl, ?_, ?_⟩
        · exact Int.emod_nonneg _ (by omega)
        · exact Int.emod_lt_of_pos _ (by omega)
      · rw [if_neg h]
        exact ⟨_, rfl, rfl,
          show (0 : Int) ≤ m.button_index + 1 by omega,
          show m.button_index + 1 < (m.buttons.length : Int) by omega⟩
  | enter | space =>
      simp only [MenuScreen.key_down]
      rw [if_neg (by simp), if_pos (by simp)]
      obtain ⟨b, _, hact⟩ := MenuScreen.activateCurrent_ok m h0 hlt
      refine ⟨_, hact, ?_, ?_, ?_⟩ <;> simp [List.length_set] <;> omega
  | other =>
      simp only [MenuScreen.key_down]
      rw [if_neg (by simp), if_neg (by simp)]
      exact ⟨m, rfl, rfl, h0, hlt⟩

/-- Witness for C10 on a two-button menu at index 1: a down key wraps to 0
and stays in range. -/
theorem claim_C10_witness :
    ([squareButton, squareButton] : List Button) ≠ [] ∧
    (0 : Int) ≤ 1 ∧ (1 : Int) < (([squareButton, squareButton] : List Button).length : Int) ∧
    ∃ m', ({ buttons := [squareButton, squareButton],
             button_index := 1 } : MenuScreen).key_down Key.down = .ok m' ∧
      m'.buttons.length = ([squareButton, squareButton] : List Button).length ∧
      0 ≤ m'.button_index ∧ m'.button_index < (m'.buttons.length : Int) :=
  ⟨by simp, by decide, by decide,
    claim_C10.2.1 { buttons := [squareButton, squareButton], button_index := 1 }
      Key.down (by simp) (by decide) (by decide)⟩

/-! ## Animation: claims C1, C4, C7 -/

/-- `finished` is terminal: `update` is a no-op on a finished animation. -/
theorem Animation.update_of_finished (a : Animation) (h : a.finished = true) :
    a.update = a := by
  simp [Animation.update, h]

/-- Claim C1: the animation built from 3 frames with durations `[2, 3, 4]`
and `repititions = 2` wraps back to frame 0 with repetition counter 1
after exactly 9 updates, is `finished` after 18 updates, and from then on
every further update leaves the state unchanged. -/
theorem claim_C1 :
    Animation.make 3 [2, 3, 4] (some 2) = .ok animC1 ∧
    (animC1.updateN 9).frame_index = 0 ∧
    (animC1.updateN 9).repititions = some 1 ∧
    (animC1.updateN 18).finished = true ∧
    ∀ k : Nat, animC1.updateN (18 + k) = animC1.updateN 18 := by
  refine ⟨rfl, by decide, by decide, by decide, ?_⟩
  intro k
  induction k with
  | zero => rfl
  | succ k ih =>
      show (animC1.updateN (18 + k)).update = _
      rw [ih, Animation.update_of_finished _ (by decide)]

/-- Claim C4: constructing an `Animation` whose glob pattern matched `n`
files with a duration list of length `m ≠ n` raises `ValueError`; the
construction returns no animation, so no frame state is installed. -/
theorem claim_C4 (fileCount : Nat) (frame_data : List Int) (reps : Option Int)
    (h : fileCount ≠ frame_data.length) :
    Animation.make fileCount frame_data reps = .error PyError.valueError := by
  simp [Animation.make, Animation.load, h]

/-- Witness for C4 at the spec's example: 3 matched files, 2 durations. -/
theorem claim_C4_witness :
    3 ≠ ([2, 3] : List Int).length ∧
    Animation.make 3 [2, 3] none = .error PyError.valueError :=
  ⟨by decide, claim_C4 3 [2, 3] none (by decide)⟩

/-- Claim C7: `reset` sets `frame_index` to 0 and `frames_until_next` to
the first frame's full duration, and leaves every other field —
`finished`, `repititions`, `frames`, `frame_count` — exactly as it was. -/
theorem claim_C7 (a : Animation) (d : Int) (tl : List Int)
    (h : a.frames = d :: tl) :
    a.reset.frame_index = 0 ∧
    a.reset.frames_until_next = d ∧
    a.reset.finished = a.finished ∧
    a.reset.repititions = a.repititions ∧
    a.reset.frames = a.frames ∧
    a.reset.frame_count = a.frame_count := by
  simp [Animation.reset, h]

/-- Witness for C7 on a finished two-frame animation: `reset` rewinds the
frame state and leaves `finished = true` and the exhausted repetition
counter untouched. -/
theorem claim_C7_witness :
    ({ frames := [5, 7], frame_count := 2, frame_index := 1,
       frames_until_next := 3, repititions := some 0,
       finished := true } : Animation).frames = 5 :: [7] ∧
    ({ frames := [5, 7], frame_count := 2, frame_index := 1,
       frames_until_next := 3, repititions := some 0,
       finished := true } : Animation).reset.frame_index = 0 ∧
    ({ frames := [5, 7], frame_count := 2, frame_index := 1,
       frames_until_next := 3, repititions := some 0,
       finished := true } : Animation).reset.frames_until_next = 5 ∧
    ({ frames := [5, 7], frame_count := 2, frame_index := 1,
       frames_until_next := 3, repititions := some 0,
       finished := true } : Animation).reset.finished = true := by
  have h := claim_C7
    { frames := [5, 7], frame_count := 2, frame_index := 1,
      frames_until_next := 3, repititions := some 0, finished := true }
    5 [7] rfl
  exact ⟨rfl, h.1, h.2.1, h.2.2.1⟩

/-! ## Animation invariant: claim C6 -/

/-- `update` never touches the frame list. -/
theorem Animation.update_frames (a : Animation) : a.update.frames = a.frames := by
  simp only [Animation.update]
  repeat' split
  all_goals rfl

/-- `update` never touches the frame count. -/
theorem Animation.update_frame_count (a : Animation) :
    a.update.frame_count = a.frame_count := by
  simp only [Animation.update]
  repeat' split
  all_goals rfl

/-- `update` keeps `frame_index` below a positive `frame_count`. -/
theorem Animation.update_frame_index_lt (a : Animation)
    (h : a.frame_index < a.frame_count) :
    a.update.frame_index < a.frame_count := by
  have hpos : 0 < a.frame_count := Nat.pos_of_ne_zero (by omega)
  simp only [Animation.update]
  repeat' split
  all_goals first
    | exact h
    | exact Nat.mod_lt _ hpos

/-- Claim C6: a successful `load` (hence a successful construction)
establishes `frame_index < len(frames)` together with a consistent
`frame_count` and a non-empty frame list; `update` and `reset` preserve
it; therefore `get_surface` always finds its entry. -/
theorem claim_C6 :
    (∀ (a₀ : Animation) (fc : Nat) (fd : List Int) (a : Animation),
        a₀.load fc fd = .ok a →
        a.frame_index < a.frames.length ∧ a.frame_count = a.frames.length ∧
          a.frames ≠ []) ∧
    (∀ (fc : Nat) (fd : List Int) (reps : Option Int) (a : Animation),
        Animation.make fc fd reps = .ok a →
        a.frame_index < a.frames.length ∧ a.frame_count = a.frames.length ∧
          a.frames ≠ []) ∧
    (∀ a : Animation, a.frame_index < a.frames.length →
        a.frame_count = a.frames.length →
        a.update.frame_index < a.update.frames.length ∧
          a.update.frame_count = a.update.frames.length ∧
          a.update.frames = a.frames) ∧
    (∀ a : Animation, a.frames ≠ [] →
        a.reset.frame_index < a.reset.frames.length ∧ a.reset.frames = a.frames) ∧
    (∀ a : Animation, a.frame_index < a.frames.length → a.get_surface.isSome) := by
  have hload : ∀ (a₀ : Animation) (fc : Nat) (fd : List Int) (a : Animation),
      a₀.load fc fd = .ok a →
      a.frame_index < a.frames.length ∧ a.frame_count = a.frames.length ∧
        a.frames ≠ [] := by
    intro a₀ fc fd a h
    unfold Animation.load at h
    by_cases hfc : fc ≠ fd.length
    · rw [if_pos hfc] at h
      cases h
    · rw [if_neg hfc] at h
      match fd, h with
      | d :: tl, h =>
          simp only [Except.ok.injEq] at h
          subst h
          simp
  refine ⟨hload, fun fc fd reps a h => hload _ fc fd a h, ?_, ?_, ?_⟩
  · intro a h1 h2
    rw [Animation.update_frames]
    refine ⟨?_, ?_, rfl⟩
    · rw [← h2]
      exact Animation.update_frame_index_lt a (h2 ▸ h1)
    · rw [Animation.update_frame_count, h2]
  · intro a h
    have : 0 < a.frames.length := List.length_pos.mpr h
    exact ⟨this, rfl⟩
  · intro a h
    unfold Animation.get_surface
    rw [List.get?_eq_get h]
    rfl

/-- Witness for C6 on the concrete three-frame animation. -/
theorem claim_C6_witness :
    Animation.make 3 [2, 3, 4] (some 2) = .ok animC1 ∧
    animC1.frame_index < animC1.frames.length ∧
    (animC1.update.frame_index < animC1.update.frames.length ∧
      animC1.update.frame_count = animC1.update.frames.length ∧
      animC1.update.frames = animC1.frames) ∧
    animC1.reset.frame_index < animC1.reset.frames.length ∧
    animC1.get_surface.isSome := by
  refine ⟨rfl, ?_, ?_, ?_, ?_⟩
  · exact (claim_C6.2.1 3 [2, 3, 4] (some 2) animC1 rfl).1
  · exact claim_C6.2.2.1 animC1 (by decide) (by decide)
  · exact (claim_C6.2.2.2.1 animC1 (by simp [animC1])).1
  · exact claim_C6.2.2.2.2 animC1 (by decide)

/-! ## Button: claim C8 -/

/-- Claim C8: activating a button sets `clicked`; any draw clears it;
a draw right after activation fills with `clicked_color`; whenever
`clicked` is set, the fill colour a draw picks is `clicked_color` (read
before being cleared). -/
theorem claim_C8 (b : Button) (o : Option Bool) :
    b.activate.clicked = true ∧
    (b.draw o).2.clicked = false ∧
    (b.activate.draw o).1 = b.clicked_color ∧
    (b.clicked = true → (b.draw o).1 = b.clicked_color) := by
  refine ⟨rfl, rfl, by simp [Button.draw, Button.activate, Button.fillColor], ?_⟩
  intro h
  simp [Button.draw, Button.fillColor, h]

/-- Witness for C8 on a concrete highlighted button: with `clicked` set the
draw fill is `clicked_color` even though the highlight flag is up. -/
theorem claim_C8_witness :
    ({ squareButton with clicked := true, highlight := true } : Button).clicked = true ∧
    (({ squareButton with clicked := true, highlight := true } : Button).draw none).1 =
      (100, 100, 100) :=
  ⟨rfl, (claim_C8 { squareButton with clicked := true, highlight := true } none).2.2.2 rfl⟩
